import Mathlib
/-!
# Verification of the vst-rust-wasm monophonic synthesizer core

A shallow embedding of the repository's DSP core (`dsp-core`: `Envelope`,
`Oscillator`, `Synth`) and of the two lock-free SPSC primitives of the
plugin crate (`NoteQueue`, `VisBuffer`), together with theorems settling
the specification claims.

Modelling conventions:
* `f32` values are modelled as exact rationals (`ℚ`); the source's
  floating-point arithmetic (`+`, `-`, `*`, `/`, comparisons, `max`,
  `clamp`) is modelled by the corresponding exact rational operation.
* The external libm function `sinf` (used only by the sine waveform) is
  not code of this repository; oscillator ticking is parametrised by an
  arbitrary function `sin32 : ℚ → ℚ` standing for it.  Likewise
  `midi_note_to_freq` calls `powf`, so the engine's `note_on` is
  parametrised by the note-to-frequency map `freqOf : ℕ → ℚ` standing
  for `midi_note_to_freq` (`440·2^((note−69)/12)`).
* Atomics are irrelevant to the single-threaded functional claims; the
  atomic loads/stores of the Rust source become plain field reads/writes.
* The cursor fields of the ring structures are natural numbers; the
  source's `usize` arithmetic uses `% capacity` explicitly, which the
  model reproduces verbatim.
-/
set_option linter.unusedVariables false
set_option maxRecDepth 8192

namespace DspCore

/-- The five envelope stages of `envelope.rs` (`enum Stage`). -/
inductive Stage
  | Idle
  | Attack
  | Decay
  | Sustain
  | Release
  deriving DecidableEq, Repr


/-- State of `Envelope` (`envelope.rs`): stage, current level, sample rate,
the four ADSR parameters and the three derived per-sample rates. -/
structure Envelope where
  stage : Stage
  level : ℚ
  sample_rate : ℚ
  attack : ℚ
  decay : ℚ
  sustain : ℚ
  release : ℚ
  attack_rate : ℚ
  decay_rate : ℚ
  release_rate : ℚ
  deriving DecidableEq, Repr

namespace Envelope

/-- `Envelope::recalculate_rates`. -/
def recalculate_rates (e : Envelope) : Envelope :=
  { e with
    attack_rate := 1 / (e.attack * e.sample_rate)
    decay_rate := (1 - e.sustain) / (e.decay * e.sample_rate)
    release_rate := e.sustain / (e.release * e.sample_rate) }


/-- `Envelope::new`. -/
def new : Envelope :=
  recalculate_rates
    { stage := Stage.Idle
      level := 0
      sample_rate := 44100
      attack := 0.01
      decay := 0.1
      sustain := 0.7
      release := 0.3
      attack_rate := 0
      decay_rate := 0
      release_rate := 0 }


/-- `Envelope::set_sample_rate`. -/
def set_sample_rate (sr : ℚ) (e : Envelope) : Envelope :=
  recalculate_rates { e with sample_rate := sr }


/-- `Envelope::set_attack`: the time is floored at 0.001 s. -/
def set_attack (seconds : ℚ) (e : Envelope) : Envelope :=
  let a := max seconds 0.001
  { e with attack := a, attack_rate := 1 / (a * e.sample_rate) }


/-- `Envelope::set_decay`: the time is floored at 0.001 s. -/
def set_decay (seconds : ℚ) (e : Envelope) : Envelope :=
  let d := max seconds 0.001
  { e with decay := d, decay_rate := (1 - e.sustain) / (d * e.sample_rate) }


/-- `Envelope::set_sustain`: the level is clamped to [0,1] and the decay
rate re-derived from the new sustain level. -/
def set_sustain (level : ℚ) (e : Envelope) : Envelope :=
  let s := min (max level 0) 1
  { e with sustain := s, decay_rate := (1 - s) / (e.decay * e.sample_rate) }


/-- `Envelope::set_release`: the time is floored at 0.001 s. -/
def set_release (seconds : ℚ) (e : Envelope) : Envelope :=
  let r := max seconds 0.001
  { e with release := r, release_rate := e.sustain / (r * e.sample_rate) }


/-- `Envelope::note_on`: enter Attack without resetting the level. -/
def note_on (e : Envelope) : Envelope :=
  { e with stage := Stage.Attack }


/-- `Envelope::note_off`: if not Idle, enter Release and recompute the
release rate from the current level. -/
def note_off (e : Envelope) : Envelope :=
  if e.stage ≠ Stage.Idle then
    { e with
      stage := Stage.Release
      release_rate := e.level / (e.release * e.sample_rate) }
  else
    e


/-- `Envelope::is_active`. -/
def is_active (e : Envelope) : Bool :=
  e.stage ≠ Stage.Idle


/-- `Envelope::tick`: produce the next envelope value and advance state.
Returns the produced value together with the successor state. -/
def tick (e : Envelope) : ℚ × Envelope :=
  match e.stage with
  | Stage.Idle => (0, e)
  | Stage.Attack =>
      let l := e.level + e.attack_rate
      if 1 ≤ l then
        (1, { e with level := 1, stage := Stage.Decay })
      else
        (l, { e with level := l })
  | Stage.Decay =>
      let l := e.level - e.decay_rate
      if l ≤ e.sustain then
        (e.sustain, { e with level := e.sustain, stage := Stage.Sustain })
      else
        (l, { e with level := l })
  | Stage.Sustain => (e.level, e)
  | Stage.Release =>
      let l := e.level - e.release_rate
      if l ≤ 0 then
        (0, { e with level := 0, stage := Stage.Idle })
      else
        (l, { e with level := l })


/-- Iterate `tick` (discarding the produced values). -/
def tickN (k : ℕ) (e : Envelope) : Envelope :=
  match k with
  | 0 => e
  | k + 1 => tickN k (tick e).2

end Envelope

/-- State invariant of the envelope: the level stays in [0,1], an Idle
envelope has level 0, and the parameters/rates keep the signs that the
setters establish (under positive sample rates). -/
structure EnvInv (e : Envelope) : Prop where
  level_nonneg : 0 ≤ e.level
  level_le_one : e.level ≤ 1
  idle_level : e.stage = Stage.Idle → e.level = 0
  sr_pos : 0 < e.sample_rate
  attack_pos : 0 < e.attack
  decay_pos : 0 < e.decay
  release_pos : 0 < e.release
  sustain_nonneg : 0 ≤ e.sustain
  sustain_le_one : e.sustain ≤ 1
  attack_rate_nonneg : 0 ≤ e.attack_rate
  decay_rate_nonneg : 0 ≤ e.decay_rate
  release_rate_nonneg : 0 ≤ e.release_rate


/-- Envelope states reachable from `Envelope::new` by the public API of
`envelope.rs`, with `set_sample_rate` restricted to positive rates. -/
inductive Reachable : Envelope → Prop
  | new : Reachable Envelope.new
  | set_sample_rate {e sr} : Reachable e → 0 < sr →
      Reachable (Envelope.set_sample_rate sr e)
  | set_attack {e s} : Reachable e → Reachable (Envelope.set_attack s e)
  | set_decay {e s} : Reachable e → Reachable (Envelope.set_decay s e)
  | set_sustain {e l} : Reachable e → Reachable (Envelope.set_sustain l e)
  | set_release {e s} : Reachable e → Reachable (Envelope.set_release s e)
  | note_on {e} : Reachable e → Reachable (Envelope.note_on e)
  | note_off {e} : Reachable e → Reachable (Envelope.note_off e)
  | tick {e} : Reachable e → Reachable (Envelope.tick e).2


/-- The four waveforms of `params.rs` (`enum OscillatorType`). -/
inductive OscillatorType
  | Sine
  | Triangle
  | Square
  | Saw
  deriving DecidableEq, Repr


/-- The value of `core::f32::consts::PI`: the `f32` nearest to π,
13176795 · 2⁻²². -/
def pi32 : ℚ := 13176795 / 4194304


/-- The truncated-division remainder of `x` by 1, modelling the `f32` `%`
operator with modulus `1.0` (Rust `Rem` on floats truncates toward zero). -/
def fmod_one (x : ℚ) : ℚ :=
  if 0 ≤ x then x - ⌊x⌋ else x - ⌈x⌉


/-- The PolyBLEP residual function `polyblep` of `oscillator.rs`. -/
def polyblep (t dt : ℚ) : ℚ :=
  if t < dt then
    let u := t / dt
    2 * u - u * u - 1
  else if t > 1 - dt then
    let u := (t - 1) / dt
    u * u + 2 * u + 1
  else
    0


/-- `generate_sine` of `oscillator.rs`; `sin32` stands for libm `sinf`. -/
def generate_sine (sin32 : ℚ → ℚ) (phase : ℚ) : ℚ :=
  sin32 (phase * 2 * pi32)


/-- `generate_saw_polyblep` of `oscillator.rs`. -/
def generate_saw_polyblep (phase dt : ℚ) : ℚ :=
  2 * phase - 1 - polyblep phase dt


/-- `generate_square_polyblep` of `oscillator.rs`. -/
def generate_square_polyblep (phase dt : ℚ) : ℚ :=
  let naive : ℚ := if phase < 0.5 then 1 else -1
  naive + polyblep phase dt - polyblep (fmod_one (phase + 0.5)) dt


/-- State of `Oscillator` (`oscillator.rs`). -/
structure Oscillator where
  phase : ℚ
  phase_delta : ℚ
  sample_rate : ℚ
  frequency : ℚ
  osc_type : OscillatorType
  tri_integrator : ℚ
  deriving DecidableEq, Repr

namespace Oscillator

/-- `Oscillator::update_phase_delta`. -/
def update_phase_delta (o : Oscillator) : Oscillator :=
  { o with phase_delta := o.frequency / o.sample_rate }


/-- `Oscillator::new`. -/
def new : Oscillator :=
  { phase := 0
    phase_delta := 0
    sample_rate := 44100
    frequency := 440
    osc_type := OscillatorType.Sine
    tri_integrator := 0 }


/-- `Oscillator::set_sample_rate`. -/
def set_sample_rate (sr : ℚ) (o : Oscillator) : Oscillator :=
  update_phase_delta { o with sample_rate := sr }


/-- `Oscillator::set_frequency`. -/
def set_frequency (f : ℚ) (o : Oscillator) : Oscillator :=
  update_phase_delta { o with frequency := f }


/-- `Oscillator::set_type`. -/
def set_type (t : OscillatorType) (o : Oscillator) : Oscillator :=
  { o with osc_type := t }


/-- `Oscillator::reset`: zero the phase and the triangle integrator. -/
def reset (o : Oscillator) : Oscillator :=
  { o with phase := 0, tri_integrator := 0 }


/-- `Oscillator::tick`: generate the next sample (for the current phase)
and advance the phase, wrapping by one if it reaches 1. -/
def tick (sin32 : ℚ → ℚ) (o : Oscillator) : ℚ × Oscillator :=
  let dt := o.phase_delta
  let so : ℚ × Oscillator :=
    match o.osc_type with
    | OscillatorType.Sine => (generate_sine sin32 o.phase, o)
    | OscillatorType.Saw => (generate_saw_polyblep o.phase dt, o)
    | OscillatorType.Square => (generate_square_polyblep o.phase dt, o)
    | OscillatorType.Triangle =>
        let square := generate_square_polyblep o.phase dt
        let st := dt * square + (1 - dt) * o.tri_integrator
        (st * 4, { o with tri_integrator := st })
  let p := so.2.phase + dt
  (so.1, { so.2 with phase := if 1 ≤ p then p - 1 else p })

end Oscillator

/-- State of `Synth` (`lib.rs` of `dsp-core`): one oscillator, one
envelope, the sample rate, the gain and the currently playing note. -/
structure Synth where
  oscillator : Oscillator
  envelope : Envelope
  sample_rate : ℚ
  gain : ℚ
  current_note : Option ℕ

namespace Synth

/-- `Synth::new`. -/
def new : Synth :=
  { oscillator := Oscillator.new
    envelope := Envelope.new
    sample_rate := 44100
    gain := 0.8
    current_note := none }


/-- `Synth::prepare`: propagate the sample rate to both sub-components. -/
def prepare (sr : ℚ) (s : Synth) : Synth :=
  { s with
    sample_rate := sr
    oscillator := Oscillator.set_sample_rate sr s.oscillator
    envelope := Envelope.set_sample_rate sr s.envelope }


/-- `Synth::set_oscillator_type`. -/
def set_oscillator_type (t : OscillatorType) (s : Synth) : Synth :=
  { s with oscillator := Oscillator.set_type t s.oscillator }


/-- `Synth::set_gain`: the gain is clamped to [0,1]. -/
def set_gain (g : ℚ) (s : Synth) : Synth :=
  { s with gain := min (max g 0) 1 }


/-- `Synth::set_attack`. -/
def set_attack (seconds : ℚ) (s : Synth) : Synth :=
  { s with envelope := Envelope.set_attack seconds s.envelope }


/-- `Synth::set_decay`. -/
def set_decay (seconds : ℚ) (s : Synth) : Synth :=
  { s with envelope := Envelope.set_decay seconds s.envelope }


/-- `Synth::set_sustain`. -/
def set_sustain (level : ℚ) (s : Synth) : Synth :=
  { s with envelope := Envelope.set_sustain level s.envelope }


/-- `Synth::set_release`. -/
def set_release (seconds : ℚ) (s : Synth) : Synth :=
  { s with envelope := Envelope.set_release seconds s.envelope }


/-- `Synth::note_on(note, _velocity)`: record the note, set the oscillator
frequency to `midi_note_to_freq(note)` (the external map `freqOf`), reset
the oscillator and trigger the envelope.  The `velocity` argument is
unused, exactly as in the source (`_velocity`). -/
def note_on (freqOf : ℕ → ℚ) (note : ℕ) (velocity : ℚ) (s : Synth) : Synth :=
  { s with
    current_note := some note
    oscillator := Oscillator.reset (Oscillator.set_frequency (freqOf note) s.oscillator)
    envelope := Envelope.note_on s.envelope }


/-- `Synth::note_off`: release the envelope only when the note matches the
currently recorded note. -/
def note_off (note : ℕ) (s : Synth) : Synth :=
  if s.current_note = some note then
    { s with
      envelope := Envelope.note_off s.envelope
      current_note := none }
  else
    s


/-- `Synth::process`: fill a buffer of `n` samples.  For each sample, if
the envelope is active the oscillator and envelope are ticked and the
sample is `osc · env · gain`; otherwise the sample is 0 and no state is
touched.  Returns the produced samples in order, with the final state. -/
def process (sin32 : ℚ → ℚ) : ℕ → Synth → List ℚ × Synth
  | 0, s => ([], s)
  | n + 1, s =>
      if Envelope.is_active s.envelope then
        let osc := Oscillator.tick sin32 s.oscillator
        let env := Envelope.tick s.envelope
        let s1 := { s with oscillator := osc.2, envelope := env.2 }
        let rest := process sin32 n s1
        (osc.1 * env.1 * s.gain :: rest.1, rest.2)
      else
        let rest := process sin32 n s
        ((0 : ℚ) :: rest.1, rest.2)

end Synth
end DspCore
namespace Plugin

/-- `NOTE_QUEUE_SIZE` of `plugin/src/lib.rs`. -/
def NOTE_QUEUE_SIZE : ℕ := 64


/-- State of `NoteQueue` (`plugin/src/lib.rs`): 64 byte slots plus the
write and read cursors.  Slot bytes are naturals < 256 in practice; the
cursors are kept < 64 by the `% NOTE_QUEUE_SIZE` arithmetic of the code. -/
structure NoteQueue where
  slots : ℕ → ℕ
  write_head : ℕ
  read_head : ℕ

namespace NoteQueue

/-- `NoteQueue::new`: every slot holds the empty sentinel 0xFF. -/
def new : NoteQueue :=
  { slots := fun _ => 0xFF
    write_head := 0
    read_head := 0 }


/-- `NoteQueue::push_raw`. -/
def push_raw (value : ℕ) (q : NoteQueue) : Bool × NoteQueue :=
  let head := q.write_head
  let next := (head + 1) % NOTE_QUEUE_SIZE
  if next = q.read_head then
    (false, q)
  else
    (true,
      { q with
        slots := Function.update q.slots head value
        write_head := next })


/-- `NoteQueue::push_note_on`: high bit set, low 7 bits of the note. -/
def push_note_on (note : ℕ) (q : NoteQueue) : Bool × NoteQueue :=
  push_raw (0x80 ||| (note &&& 0x7F)) q


/-- `NoteQueue::push_note_off`: low 7 bits of the note only. -/
def push_note_off (note : ℕ) (q : NoteQueue) : Bool × NoteQueue :=
  push_raw (note &&& 0x7F) q


/-- The loop body of `NoteQueue::drain`, with explicit fuel.  Each
iteration pops the slot at the read cursor, decodes direction and note
exactly as the source (`raw & 0x80 != 0`, `raw & 0x7F`), and advances the
read cursor modulo the capacity. -/
def drain_go : ℕ → NoteQueue → List (Bool × ℕ) × NoteQueue
  | 0, q => ([], q)
  | fuel + 1, q =>
      if q.read_head = q.write_head then
        ([], q)
      else
        let raw := q.slots q.read_head
        let is_on : Bool := raw &&& 0x80 != 0
        let note := raw &&& 0x7F
        let rest := drain_go fuel
          { q with read_head := (q.read_head + 1) % NOTE_QUEUE_SIZE }
        ((is_on, note) :: rest.1, rest.2)


/-- `NoteQueue::drain`: the source loops until the cursors meet; the queue
never holds more than NOTE_QUEUE_SIZE − 1 events, so NOTE_QUEUE_SIZE fuel
is enough for the loop to terminate by cursor equality.  Returns the
events passed to the callback, in invocation order, with the final
state. -/
def drain (q : NoteQueue) : List (Bool × ℕ) × NoteQueue :=
  drain_go NOTE_QUEUE_SIZE q


/-- Well-formedness: both cursors in range, as maintained by the code's
`% NOTE_QUEUE_SIZE` arithmetic. -/
def wf (q : NoteQueue) : Prop :=
  q.write_head < NOTE_QUEUE_SIZE ∧ q.read_head < NOTE_QUEUE_SIZE


/-- Number of queued events. -/
def pending (q : NoteQueue) : ℕ :=
  (q.write_head + NOTE_QUEUE_SIZE - q.read_head) % NOTE_QUEUE_SIZE


/-- The queued raw bytes, oldest first. -/
def toList (q : NoteQueue) : List ℕ :=
  (List.range (pending q)).map fun i => q.slots ((q.read_head + i) % NOTE_QUEUE_SIZE)


/-- The slot encoding of one (direction, note) event, as `push_note_on` /
`push_note_off` store it. -/
def encode (e : Bool × ℕ) : ℕ :=
  if e.1 then 0x80 ||| (e.2 &&& 0x7F) else e.2 &&& 0x7F


/-- The decoding `drain` applies to one raw slot byte. -/
def decode (raw : ℕ) : Bool × ℕ :=
  (raw &&& 0x80 != 0, raw &&& 0x7F)


/-- Push one (direction, note) event through the corresponding API call. -/
def push_event (e : Bool × ℕ) (q : NoteQueue) : Bool × NoteQueue :=
  if e.1 then push_note_on e.2 q else push_note_off e.2 q


/-- Push a list of events in order, collecting the returned flags. -/
def push_all : List (Bool × ℕ) → NoteQueue → List Bool × NoteQueue
  | [], q => ([], q)
  | e :: es, q =>
      let r := push_event e q
      let rest := push_all es r.2
      (r.1 :: rest.1, rest.2)

end NoteQueue

/-- `VIS_BUFFER_SIZE` of `plugin/src/lib.rs`. -/
def VIS_BUFFER_SIZE : ℕ := 2048


/-- State of `VisBuffer` (`plugin/src/lib.rs`): the two sample buffers
(indexed 0 and 1, each conceptually of length `VIS_BUFFER_SIZE`), the
write cursor into the back buffer, and the index of the front buffer. -/
structure VisBuffer where
  bufs : ℕ → ℕ → ℚ
  write_pos : ℕ
  front : ℕ

namespace VisBuffer

/-- `VisBuffer::new`: both buffers zeroed, cursor and front at 0. -/
def new : VisBuffer :=
  { bufs := fun _ _ => 0
    write_pos := 0
    front := 0 }


/-- `VisBuffer::push`: write the sample into the back buffer (`1 − front`)
at the write cursor, advance the cursor modulo the buffer length, and when
the cursor wraps to 0 publish the back buffer as the new front. -/
def push (sample : ℚ) (v : VisBuffer) : VisBuffer :=
  let back := 1 - v.front
  let pos := v.write_pos
  let bufs' := Function.update v.bufs back
    (Function.update (v.bufs back) pos sample)
  let next_pos := (pos + 1) % VIS_BUFFER_SIZE
  if next_pos = 0 then
    { bufs := bufs', write_pos := next_pos, front := back }
  else
    { bufs := bufs', write_pos := next_pos, front := v.front }


/-- `VisBuffer::read_front`: the buffer currently marked front. -/
def read_front (v : VisBuffer) : ℕ → ℚ :=
  v.bufs v.front


/-- Push a list of samples in order. -/
def push_list : List ℚ → VisBuffer → VisBuffer
  | [], v => v
  | x :: xs, v => push_list xs (push x v)

end VisBuffer
end Plugin

namespace DspCore

@[simp] theorem Stage.attack_ne_idle : Stage.Attack ≠ Stage.Idle := by decide


@[simp] theorem Stage.decay_ne_idle : Stage.Decay ≠ Stage.Idle := by decide


@[simp] theorem Stage.sustain_ne_idle : Stage.Sustain ≠ Stage.Idle := by decide


@[simp] theorem Stage.release_ne_idle : Stage.Release ≠ Stage.Idle := by decide


theorem envInv_new : EnvInv Envelope.new := by
  constructor <;> norm_num [Envelope.new, Envelope.recalculate_rates]


theorem envInv_set_sample_rate {e : Envelope} {sr : ℚ} (h : EnvInv e)
    (hsr : 0 < sr) : EnvInv (Envelope.set_sample_rate sr e) := by
  obtain ⟨hl0, hl1, hidle, _, ha, hd, hr, hs0, hs1, _, _, _⟩ := h
  refine ⟨hl0, hl1, hidle, hsr, ha, hd, hr, hs0, hs1, ?_, ?_, ?_⟩ <;>
    simp only [Envelope.set_sample_rate, Envelope.recalculate_rates]
  · exact div_nonneg zero_le_one (mul_pos ha hsr).le
  · exact div_nonneg (by linarith) (mul_pos hd hsr).le
  · exact div_nonneg hs0 (mul_pos hr hsr).le


theorem envInv_set_attack {e : Envelope} {s : ℚ} (h : EnvInv e) :
    EnvInv (Envelope.set_attack s e) := by
  obtain ⟨hl0, hl1, hidle, hsr, _, hd, hr, hs0, hs1, _, hdr, hrr⟩ := h
  have hmax : (0 : ℚ) < max s 0.001 := lt_of_lt_of_le (by norm_num) (le_max_right s 0.001)
  exact ⟨hl0, hl1, hidle, hsr, hmax, hd, hr, hs0, hs1,
    div_nonneg zero_le_one (mul_pos hmax hsr).le, hdr, hrr⟩


theorem envInv_set_decay {e : Envelope} {s : ℚ} (h : EnvInv e) :
    EnvInv (Envelope.set_decay s e) := by
  obtain ⟨hl0, hl1, hidle, hsr, ha, _, hr, hs0, hs1, har, _, hrr⟩ := h
  have hmax : (0 : ℚ) < max s 0.001 := lt_of_lt_of_le (by norm_num) (le_max_right s 0.001)
  exact ⟨hl0, hl1, hidle, hsr, ha, hmax, hr, hs0, hs1, har,
    div_nonneg (by linarith) (mul_pos hmax hsr).le, hrr⟩


theorem envInv_set_sustain {e : Envelope} {l : ℚ} (h : EnvInv e) :
    EnvInv (Envelope.set_sustain l e) := by
  obtain ⟨hl0, hl1, hidle, hsr, ha, hd, hr, _, _, har, _, hrr⟩ := h
  have h0 : (0 : ℚ) ≤ min (max l 0) 1 := le_min (le_max_right l 0) zero_le_one
  have h1 : min (max l 0) 1 ≤ 1 := min_le_right _ _
  exact ⟨hl0, hl1, hidle, hsr, ha, hd, hr, h0, h1, har,
    div_nonneg (by linarith) (mul_pos hd hsr).le, hrr⟩


theorem envInv_set_release {e : Envelope} {s : ℚ} (h : EnvInv e) :
    EnvInv (Envelope.set_release s e) := by
  obtain ⟨hl0, hl1, hidle, hsr, ha, hd, _, hs0, hs1, har, hdr, _⟩ := h
  have hmax : (0 : ℚ) < max s 0.001 := lt_of_lt_of_le (by norm_num) (le_max_right s 0.001)
  exact ⟨hl0, hl1, hidle, hsr, ha, hd, hmax, hs0, hs1, har, hdr,
    div_nonneg hs0 (mul_pos hmax hsr).le⟩


theorem envInv_note_on {e : Envelope} (h : EnvInv e) :
    EnvInv (Envelope.note_on e) := by
  obtain ⟨hl0, hl1, hidle, hsr, ha, hd, hr, hs0, hs1, har, hdr, hrr⟩ := h
  exact ⟨hl0, hl1, by simp [Envelope.note_on], hsr, ha, hd, hr, hs0, hs1, har, hdr, hrr⟩


theorem envInv_note_off {e : Envelope} (h : EnvInv e) :
    EnvInv (Envelope.note_off e) := by
  obtain ⟨hl0, hl1, hidle, hsr, ha, hd, hr, hs0, hs1, har, hdr, hrr⟩ := h
  unfold Envelope.note_off
  split_ifs with hact
  · exact ⟨hl0, hl1, by simp, hsr, ha, hd, hr, hs0, hs1, har, hdr,
      div_nonneg hl0 (mul_pos hr hsr).le⟩
  · exact ⟨hl0, hl1, hidle, hsr, ha, hd, hr, hs0, hs1, har, hdr, hrr⟩


theorem envInv_tick {e : Envelope} (h : EnvInv e) : EnvInv (Envelope.tick e).2 := by
  obtain ⟨hl0, hl1, hidle, hsr, ha, hd, hr, hs0, hs1, har, hdr, hrr⟩ := h
  unfold Envelope.tick
  cases hst : e.stage
  case Idle => exact ⟨hl0, hl1, hidle, hsr, ha, hd, hr, hs0, hs1, har, hdr, hrr⟩
  case Attack =>
    dsimp only
    split_ifs with htop
    · exact ⟨zero_le_one, le_refl 1, by simp, hsr, ha, hd, hr, hs0, hs1, har, hdr, hrr⟩
    · exact ⟨by dsimp only; linarith, by dsimp only; linarith, by simp, hsr, ha, hd, hr,
        hs0, hs1, har, hdr, hrr⟩
  case Decay =>
    dsimp only
    split_ifs with hbot
    · exact ⟨hs0, hs1, by simp, hsr, ha, hd, hr, hs0, hs1, har, hdr, hrr⟩
    · exact ⟨by dsimp only; linarith, by dsimp only; linarith, by simp, hsr, ha, hd, hr,
        hs0, hs1, har, hdr, hrr⟩
  case Sustain => exact ⟨hl0, hl1, hidle, hsr, ha, hd, hr, hs0, hs1, har, hdr, hrr⟩
  case Release =>
    dsimp only
    split_ifs with hbot
    · exact ⟨le_refl 0, zero_le_one, fun _ => rfl, hsr, ha, hd, hr, hs0, hs1, har, hdr, hrr⟩
    · exact ⟨by dsimp only; linarith, by dsimp only; linarith, by simp, hsr, ha, hd, hr,
        hs0, hs1, har, hdr, hrr⟩


theorem reachable_envInv {e : Envelope} (h : Reachable e) : EnvInv e := by
  induction h with
  | new => exact envInv_new
  | set_sample_rate _ hsr ih => exact envInv_set_sample_rate ih hsr
  | set_attack _ ih => exact envInv_set_attack ih
  | set_decay _ ih => exact envInv_set_decay ih
  | set_sustain _ ih => exact envInv_set_sustain ih
  | set_release _ ih => exact envInv_set_release ih
  | note_on _ ih => exact envInv_note_on ih
  | note_off _ ih => exact envInv_note_off ih
  | tick _ ih => exact envInv_tick ih


theorem tick_idle {e : Envelope} (h : e.stage = Stage.Idle) :
    (Envelope.tick e).2 = e := by
  unfold Envelope.tick
  rw [h]


theorem tickN_idle {e : Envelope} (h : e.stage = Stage.Idle) (k : ℕ) :
    Envelope.tickN k e = e := by
  induction k with
  | zero => rfl
  | succ k ih =>
      show Envelope.tickN k (Envelope.tick e).2 = e
      rw [tick_idle h, ih]


/-- Shape of one `tick` in the Release stage. -/
theorem tick_release {e : Envelope} (hst : e.stage = Stage.Release) :
    (Envelope.tick e).2 =
      if e.level - e.release_rate ≤ 0 then
        { e with level := 0, stage := Stage.Idle }
      else
        { e with level := e.level - e.release_rate } := by
  unfold Envelope.tick
  rw [hst]
  dsimp only
  split_ifs with h <;> rfl


/-- In the Release stage with a positive rate and positive level, the stage
after `k` ticks is Idle exactly when `k` rate-sized steps cover the level. -/
theorem tickN_release_idle_iff {e : Envelope} (hst : e.stage = Stage.Release)
    (hrate : 0 < e.release_rate) (hlev : 0 < e.level) (k : ℕ) :
    (Envelope.tickN k e).stage = Stage.Idle ↔ e.level ≤ k * e.release_rate := by
  induction k generalizing e with
  | zero =>
      rw [show Envelope.tickN 0 e = e from rfl, hst]
      push_cast
      rw [zero_mul]
      constructor
      · intro h
        exact absurd h (by simp)
      · intro h
        exact absurd h (not_le.mpr hlev)
  | succ k ih =>
      rw [show Envelope.tickN (k + 1) e = Envelope.tickN k (Envelope.tick e).2 from rfl,
        tick_release hst]
      split_ifs with hbot
      · rw [tickN_idle rfl]
        dsimp only
        push_cast
        have hk : (0 : ℚ) ≤ (k : ℚ) := Nat.cast_nonneg k
        constructor
        · intro _
          nlinarith
        · intro _
          rfl
      · rw [ih (e := { e with level := e.level - e.release_rate }) hst hrate
          (by dsimp only; linarith)]
        dsimp only
        push_cast
        constructor <;> intro h <;> linarith


/-- C2: For every reachable Envelope state (from `Envelope::new` under any
sequence of `set_sample_rate` with positive rate, the four parameter
setters, `note_on`, `note_off` and `tick`), the level stays in [0,1], and
whenever the stage is Idle the level equals 0. -/
theorem envelope_level_invariant {e : Envelope} (h : Reachable e) :
    0 ≤ e.level ∧ e.level ≤ 1 ∧ (e.stage = Stage.Idle → e.level = 0) :=
  ⟨(reachable_envInv h).level_nonneg, (reachable_envInv h).level_le_one,
    (reachable_envInv h).idle_level⟩


/-- Witness for C2 at the concrete reachable state reached by
`note_on` followed by one `tick` from `Envelope::new`. -/
theorem envelope_level_invariant_witness :
    0 ≤ (Envelope.tick (Envelope.note_on Envelope.new)).2.level ∧
    (Envelope.tick (Envelope.note_on Envelope.new)).2.level ≤ 1 ∧
    ((Envelope.tick (Envelope.note_on Envelope.new)).2.stage = Stage.Idle →
      (Envelope.tick (Envelope.note_on Envelope.new)).2.level = 0) :=
  envelope_level_invariant (Reachable.tick (Reachable.note_on Reachable.new))


/-- C1 (amended): for every envelope that is active at a positive level L
when `note_off` is called (with positive `release·sample_rate`), `note_off`
recomputes the release rate as L / (release·sample_rate), and the number of
subsequent ticks until the stage becomes Idle is exactly
`⌈release·sample_rate⌉` — independent of L. -/
theorem noteOff_release_tick_count {e : Envelope} (hact : e.stage ≠ Stage.Idle)
    (hlev : 0 < e.level) (hS : 0 < e.release * e.sample_rate) :
    (Envelope.note_off e).release_rate = e.level / (e.release * e.sample_rate) ∧
    ∀ k : ℕ, ((Envelope.tickN k (Envelope.note_off e)).stage = Stage.Idle ↔
      ⌈e.release * e.sample_rate⌉₊ ≤ k) := by
  have hoff : Envelope.note_off e =
      { e with stage := Stage.Release,
               release_rate := e.level / (e.release * e.sample_rate) } := by
    unfold Envelope.note_off
    rw [if_pos hact]
  refine ⟨by rw [hoff], fun k => ?_⟩
  have h1 : (Envelope.note_off e).stage = Stage.Release := by rw [hoff]
  have h2 : 0 < (Envelope.note_off e).release_rate := by
    rw [hoff]
    exact div_pos hlev hS
  have h3 : 0 < (Envelope.note_off e).level := by
    rw [hoff]
    exact hlev
  rw [tickN_release_idle_iff h1 h2 h3 k, hoff]
  dsimp only
  rw [Nat.ceil_le, ← mul_div_assoc, le_div_iff₀ hS, mul_comm (k : ℚ) e.level]
  exact mul_le_mul_left hlev


/-- Witness for C1: releasing from Sustain at level 0.7 with the default
release time 0.3 s at 44100 Hz reaches Idle at tick 13230 and not before. -/
theorem noteOff_release_tick_count_witness :
    (Envelope.tickN 13230 (Envelope.note_off
      { Envelope.new with stage := Stage.Sustain, level := 0.7 })).stage = Stage.Idle ∧
    ¬ (Envelope.tickN 13229 (Envelope.note_off
      { Envelope.new with stage := Stage.Sustain, level := 0.7 })).stage = Stage.Idle := by
  have hact : ({ Envelope.new with stage := Stage.Sustain, level := 0.7 } :
      Envelope).stage ≠ Stage.Idle := by simp
  have hlev : (0 : ℚ) < ({ Envelope.new with stage := Stage.Sustain, level := 0.7 } :
      Envelope).level := by norm_num
  have hS : (0 : ℚ) < ({ Envelope.new with stage := Stage.Sustain, level := 0.7 } :
      Envelope).release * ({ Envelope.new with stage := Stage.Sustain, level := 0.7 } :
      Envelope).sample_rate := by
    norm_num [Envelope.new, Envelope.recalculate_rates]
  have hceil : ⌈({ Envelope.new with stage := Stage.Sustain, level := 0.7 } :
      Envelope).release * ({ Envelope.new with stage := Stage.Sustain, level := 0.7 } :
      Envelope).sample_rate⌉₊ = 13230 := by
    norm_num [Envelope.new, Envelope.recalculate_rates]
  constructor
  · exact ((noteOff_release_tick_count hact hlev hS).2 13230).mpr (by rw [hceil])
  · intro hidle
    have := ((noteOff_release_tick_count hact hlev hS).2 13229).mp hidle
    rw [hceil] at this
    omega


/-- The phase after one `tick`, as a function of the old phase and
`phase_delta`: the waveform branch never touches the phase. -/
theorem tick_phase (sin32 : ℚ → ℚ) (o : Oscillator) :
    ((Oscillator.tick sin32 o).2.phase =
      if 1 ≤ o.phase + o.phase_delta then o.phase + o.phase_delta - 1
      else o.phase + o.phase_delta) ∧
    (Oscillator.tick sin32 o).2.phase_delta = o.phase_delta := by
  unfold Oscillator.tick
  cases o.osc_type <;> dsimp only <;> split_ifs <;> exact ⟨rfl, rfl⟩


/-- C5 (amended): if the phase is in [0,1) and `phase_delta` lies in
[0,1], the phase is again in [0,1) after `tick`. -/
theorem tick_phase_wraps (sin32 : ℚ → ℚ) (o : Oscillator)
    (h0 : 0 ≤ o.phase) (h1 : o.phase < 1)
    (hd0 : 0 ≤ o.phase_delta) (hd1 : o.phase_delta ≤ 1) :
    0 ≤ (Oscillator.tick sin32 o).2.phase ∧ (Oscillator.tick sin32 o).2.phase < 1 := by
  rw [(tick_phase sin32 o).1]
  split_ifs with h <;> constructor <;> linarith


/-- Witness for C5: `Oscillator::new` prepared at 44100 Hz with the default
440 Hz frequency satisfies the hypotheses, so one tick keeps its phase in
[0,1). -/
theorem tick_phase_wraps_witness :
    0 ≤ (Oscillator.tick (fun _ => 0)
      (Oscillator.set_sample_rate 44100 Oscillator.new)).2.phase ∧
    (Oscillator.tick (fun _ => 0)
      (Oscillator.set_sample_rate 44100 Oscillator.new)).2.phase < 1 :=
  tick_phase_wraps (fun _ => 0) (Oscillator.set_sample_rate 44100 Oscillator.new)
    (by norm_num [Oscillator.new, Oscillator.set_sample_rate, Oscillator.update_phase_delta])
    (by norm_num [Oscillator.new, Oscillator.set_sample_rate, Oscillator.update_phase_delta])
    (by norm_num [Oscillator.new, Oscillator.set_sample_rate, Oscillator.update_phase_delta])
    (by norm_num [Oscillator.new, Oscillator.set_sample_rate, Oscillator.update_phase_delta])


/-- Counterexample to C5 as stated: with sample rate 1 and frequency 2
(both accepted by the setters, giving `phase_delta` = 2), ticking from
phase 0 leaves the phase at 1, outside [0,1). -/
theorem tick_phase_wraps_cex :
    (0 : ℚ) ≤ (Oscillator.set_frequency 2 (Oscillator.set_sample_rate 1
      Oscillator.new)).phase ∧
    (Oscillator.set_frequency 2 (Oscillator.set_sample_rate 1
      Oscillator.new)).phase < 1 ∧
    (Oscillator.tick (fun _ => 0) (Oscillator.set_frequency 2
      (Oscillator.set_sample_rate 1 Oscillator.new))).2.phase = 1 := by
  refine ⟨?_, ?_, ?_⟩
  · norm_num [Oscillator.new, Oscillator.set_sample_rate, Oscillator.set_frequency,
      Oscillator.update_phase_delta]
  · norm_num [Oscillator.new, Oscillator.set_sample_rate, Oscillator.set_frequency,
      Oscillator.update_phase_delta]
  · rw [(tick_phase (fun _ => 0) _).1]
    norm_num [Oscillator.new, Oscillator.set_sample_rate, Oscillator.set_frequency,
      Oscillator.update_phase_delta]


/-- Counterexample to C1 as stated: `note_on` from a fresh envelope leaves
the level at 0, so the envelope is active at level L = 0; `note_off` then
reaches Idle after a single tick, not after about
release·sample_rate = 13230 ticks. -/
theorem noteOff_zero_level_cex :
    Envelope.is_active (Envelope.note_on Envelope.new) = true ∧
    (Envelope.note_on Envelope.new).level = 0 ∧
    (Envelope.tickN 1 (Envelope.note_off (Envelope.note_on Envelope.new))).stage
      = Stage.Idle ∧
    Envelope.new.release * Envelope.new.sample_rate = 13230 := by
  norm_num [Envelope.new, Envelope.recalculate_rates, Envelope.note_on,
    Envelope.note_off, Envelope.is_active, Envelope.tick, Envelope.tickN]


/-- C8: with an inactive envelope (stage Idle), `process` writes 0 to every
sample of the buffer and leaves the whole Synth state — oscillator phase
and integrator, envelope, and everything else — unchanged. -/
theorem process_inactive (sin32 : ℚ → ℚ) {s : Synth}
    (h : s.envelope.stage = Stage.Idle) (n : ℕ) :
    Synth.process sin32 n s = (List.replicate n 0, s) := by
  induction n with
  | zero => rfl
  | succ n ih =>
      have hact : Envelope.is_active s.envelope = false := by
        simp [Envelope.is_active, h]
      simp only [Synth.process, hact, Bool.false_eq_true, if_false, ih,
        List.replicate_succ]


/-- Witness for C8: a fresh `Synth` has an Idle envelope, so a 4-sample
`process` returns four zeros and the unchanged state. -/
theorem process_inactive_witness :
    Synth.process (fun _ => 0) 4 Synth.new = (List.replicate 4 0, Synth.new) :=
  process_inactive (fun _ => 0) rfl 4


theorem process_gain_zero (sin32 : ℚ → ℚ) (n : ℕ) {s : Synth} (h : s.gain = 0) :
    (Synth.process sin32 n s).1 = List.replicate n 0 ∧
    (Synth.process sin32 n s).2.gain = 0 := by
  induction n generalizing s with
  | zero => exact ⟨rfl, h⟩
  | succ n ih =>
      simp only [Synth.process]
      split_ifs with hact
      · have := ih (s := { s with
          oscillator := (Oscillator.tick sin32 s.oscillator).2
          envelope := (Envelope.tick s.envelope).2 }) h
        refine ⟨?_, this.2⟩
        rw [List.replicate_succ]
        dsimp only
        rw [this.1, h, mul_zero]
      · have := ih (s := s) h
        refine ⟨?_, this.2⟩
        rw [List.replicate_succ]
        dsimp only
        rw [this.1]


/-- The state evolution of `process` does not depend on the gain, and the
produced samples scale linearly in it: a state with gain `g` produces
exactly `g ·` the samples of the same state with gain 1. -/
theorem process_gain_scale (sin32 : ℚ → ℚ) (n : ℕ) (s t : Synth) (g : ℚ)
    (hosc : s.oscillator = t.oscillator) (henv : s.envelope = t.envelope)
    (hgs : s.gain = g) (hgt : t.gain = 1) :
    (Synth.process sin32 n s).1 = (Synth.process sin32 n t).1.map (fun x => g * x) ∧
    (Synth.process sin32 n s).2.oscillator = (Synth.process sin32 n t).2.oscillator ∧
    (Synth.process sin32 n s).2.envelope = (Synth.process sin32 n t).2.envelope ∧
    (Synth.process sin32 n s).2.gain = g ∧
    (Synth.process sin32 n t).2.gain = 1 := by
  induction n generalizing s t with
  | zero => exact ⟨rfl, hosc, henv, hgs, hgt⟩
  | succ n ih =>
      simp only [Synth.process, henv]
      split_ifs with hact
      · have key := ih
          { s with
            oscillator := (Oscillator.tick sin32 s.oscillator).2
            envelope := (Envelope.tick t.envelope).2 }
          { t with
            oscillator := (Oscillator.tick sin32 t.oscillator).2
            envelope := (Envelope.tick t.envelope).2 }
          (by dsimp only; rw [hosc]) rfl hgs hgt
        refine ⟨?_, ?_, ?_, ?_, ?_⟩ <;> dsimp only
        · rw [List.map_cons, key.1, hosc, hgs, hgt]
          ring_nf
        · exact key.2.1
        · exact key.2.2.1
        · exact key.2.2.2.1
        · exact key.2.2.2.2
      · have key := ih s t hosc henv hgs hgt
        refine ⟨?_, ?_, ?_, ?_, ?_⟩ <;> dsimp only
        · rw [List.map_cons, key.1, mul_zero]
        · exact key.2.1
        · exact key.2.2.1
        · exact key.2.2.2.1
        · exact key.2.2.2.2


/-- C7: `process` with gain 0 produces an all-zero buffer, and for any
g ∈ [0,1] the buffer produced after `set_gain g` equals, sample for sample,
`g ·` the buffer produced by the identically-driven engine after
`set_gain 1` (exactly, in the rational model). -/
theorem process_gain_zero_and_scales (sin32 : ℚ → ℚ) (n : ℕ) (s : Synth)
    (g : ℚ) (hg0 : 0 ≤ g) (hg1 : g ≤ 1) :
    (s.gain = 0 → (Synth.process sin32 n s).1 = List.replicate n 0) ∧
    (Synth.process sin32 n (Synth.set_gain g s)).1 =
      (Synth.process sin32 n (Synth.set_gain 1 s)).1.map (fun x => g * x) := by
  constructor
  · intro h
    exact (process_gain_zero sin32 n h).1
  · have hgs : (Synth.set_gain g s).gain = g := by
      show min (max g 0) 1 = g
      rw [max_eq_left hg0, min_eq_left hg1]
    have hgt : (Synth.set_gain 1 s).gain = 1 := by
      show min (max 1 0) 1 = 1
      norm_num
    exact (process_gain_scale sin32 n (Synth.set_gain g s) (Synth.set_gain 1 s)
      g rfl rfl hgs hgt).1


/-- Witness for C7 at gain 0 and gain ½ on a triggered fresh synth over a
3-sample buffer. -/
theorem process_gain_zero_and_scales_witness :
    ((Synth.set_gain 0 Synth.new).gain = 0 →
      (Synth.process (fun _ => 0) 3 (Synth.set_gain 0 Synth.new)).1 =
        List.replicate 3 0) ∧
    (Synth.process (fun _ => 0) 3 (Synth.set_gain 0.5 Synth.new)).1 =
      (Synth.process (fun _ => 0) 3 (Synth.set_gain 1 Synth.new)).1.map
        (fun x => 0.5 * x) :=
  ⟨(process_gain_zero_and_scales (fun _ => 0) 3 (Synth.set_gain 0 Synth.new)
      0.5 (by norm_num) (by norm_num)).1,
   (process_gain_zero_and_scales (fun _ => 0) 3 Synth.new
      0.5 (by norm_num) (by norm_num)).2⟩


/-- C9: the `velocity` argument of `Synth::note_on` has no effect — from
equal states, `note_on` with the same note and any two velocities yields
equal states (so every subsequent operation sequence behaves identically). -/
theorem note_on_velocity_independent (freqOf : ℕ → ℚ) (note : ℕ)
    (v1 v2 : ℚ) (s : Synth) :
    Synth.note_on freqOf note v1 s = Synth.note_on freqOf note v2 s := rfl

end DspCore
namespace Plugin
namespace NoteQueue

theorem push_event_eq (e : Bool × ℕ) (q : NoteQueue) :
    push_event e q = push_raw (encode e) q := by
  rcases e with ⟨b, n⟩
  cases b <;> rfl


theorem pending_lt (q : NoteQueue) : pending q < NOTE_QUEUE_SIZE :=
  Nat.mod_lt _ (by norm_num [NOTE_QUEUE_SIZE])


theorem pending_eq_zero_iff {q : NoteQueue} (hwf : wf q) :
    pending q = 0 ↔ q.read_head = q.write_head := by
  obtain ⟨hw, hr⟩ := hwf
  unfold pending NOTE_QUEUE_SIZE at *
  omega


theorem toList_empty {q : NoteQueue} (h : pending q = 0) : toList q = [] := by
  unfold toList
  rw [h]
  rfl


/-- A successful `push_raw` (queue not full): returns true, keeps the read
cursor, bumps the pending count and appends the value to the queued
bytes. -/
theorem push_raw_spec {q : NoteQueue} (v : ℕ) (hwf : wf q)
    (hp : pending q < NOTE_QUEUE_SIZE - 1) :
    (push_raw v q).1 = true ∧
    wf (push_raw v q).2 ∧
    (push_raw v q).2.read_head = q.read_head ∧
    (push_raw v q).2.write_head = (q.write_head + 1) % NOTE_QUEUE_SIZE ∧
    (push_raw v q).2.slots q.write_head = v ∧
    pending (push_raw v q).2 = pending q + 1 ∧
    toList (push_raw v q).2 = toList q ++ [v] := by
  obtain ⟨hw, hr⟩ := hwf
  have hcond : (q.write_head + 1) % NOTE_QUEUE_SIZE ≠ q.read_head := by
    unfold pending NOTE_QUEUE_SIZE at *
    omega
  unfold push_raw
  rw [if_neg hcond]
  have hpend : pending { q with
      slots := Function.update q.slots q.write_head v
      write_head := (q.write_head + 1) % NOTE_QUEUE_SIZE } = pending q + 1 := by
    unfold pending NOTE_QUEUE_SIZE at *
    dsimp only
    omega
  refine ⟨rfl, ⟨?_, hr⟩, rfl, rfl, ?_, hpend, ?_⟩
  · show (q.write_head + 1) % NOTE_QUEUE_SIZE < NOTE_QUEUE_SIZE
    unfold NOTE_QUEUE_SIZE
    omega
  · exact Function.update_same q.write_head v q.slots
  · unfold toList
    rw [hpend]
    dsimp only
    rw [List.range_succ, List.map_append, List.map_cons, List.map_nil]
    congr 1
    · apply List.map_congr_left
      intro i hi
      rw [List.mem_range] at hi
      have hne : (q.read_head + i) % NOTE_QUEUE_SIZE ≠ q.write_head := by
        unfold pending NOTE_QUEUE_SIZE at *
        omega
      exact Function.update_noteq hne v q.slots
    · have heq : (q.read_head + pending q) % NOTE_QUEUE_SIZE = q.write_head := by
        unfold pending NOTE_QUEUE_SIZE at *
        omega
      rw [heq, Function.update_same]


/-- A `push_raw` on a full queue fails and returns the state unchanged. -/
theorem push_raw_full {q : NoteQueue} (v : ℕ)
    (hfull : (q.write_head + 1) % NOTE_QUEUE_SIZE = q.read_head) :
    push_raw v q = (false, q) := by
  unfold push_raw
  rw [if_pos hfull]


/-- Decomposition of the queued bytes of a nonempty queue. -/
theorem toList_cons {q : NoteQueue} (hwf : wf q)
    (hne : q.read_head ≠ q.write_head) :
    toList q = q.slots q.read_head ::
      toList { q with read_head := (q.read_head + 1) % NOTE_QUEUE_SIZE } := by
  obtain ⟨hw, hr⟩ := hwf
  have hpend : pending q =
      pending { q with read_head := (q.read_head + 1) % NOTE_QUEUE_SIZE } + 1 := by
    unfold pending NOTE_QUEUE_SIZE at *
    dsimp only
    omega
  unfold toList
  rw [hpend]
  rw [List.range_succ_eq_map, List.map_cons]
  congr 1
  · rw [Nat.add_zero, Nat.mod_eq_of_lt hr]
  · rw [List.map_map]
    apply List.map_congr_left
    intro i hi
    dsimp only [Function.comp]
    congr 1
    show (q.read_head + (i + 1)) % NOTE_QUEUE_SIZE =
      ((q.read_head + 1) % NOTE_QUEUE_SIZE + i) % NOTE_QUEUE_SIZE
    rw [Nat.mod_add_mod]
    ring_nf


/-- `drain_go` with enough fuel empties the queue and reports exactly the
decoded queued bytes, oldest first. -/
theorem drain_go_spec : ∀ (fuel : ℕ) (q : NoteQueue), wf q →
    pending q ≤ fuel →
    drain_go fuel q = ((toList q).map decode, { q with read_head := q.write_head })
  | 0, q, hwf, hfuel => by
      have h0 : pending q = 0 := Nat.le_zero.mp hfuel
      have hrw : q.read_head = q.write_head := (pending_eq_zero_iff hwf).mp h0
      rw [toList_empty h0]
      show ([], q) = ([], { q with read_head := q.write_head })
      obtain ⟨sl, w, r⟩ := q
      dsimp only at hrw
      subst hrw
      rfl
  | fuel + 1, q, hwf, hfuel => by
      unfold drain_go
      split_ifs with heq
      · have h0 : pending q = 0 := (pending_eq_zero_iff hwf).mpr heq
        rw [toList_empty h0]
        show ([], q) = ([], { q with read_head := q.write_head })
        obtain ⟨sl, w, r⟩ := q
        dsimp only at heq
        subst heq
        rfl
      · have hwf1 : wf { q with read_head := (q.read_head + 1) % NOTE_QUEUE_SIZE } := by
          obtain ⟨hw, hr⟩ := hwf
          refine ⟨hw, ?_⟩
          show (q.read_head + 1) % NOTE_QUEUE_SIZE < NOTE_QUEUE_SIZE
          unfold NOTE_QUEUE_SIZE
          omega
        have hpend : pending { q with read_head := (q.read_head + 1) % NOTE_QUEUE_SIZE }
            = pending q - 1 := by
          obtain ⟨hw, hr⟩ := hwf
          unfold pending NOTE_QUEUE_SIZE at *
          dsimp only
          omega
        have hpos : 1 ≤ pending q := by
          obtain ⟨hw, hr⟩ := hwf
          unfold pending NOTE_QUEUE_SIZE at *
          omega
        have ih := drain_go_spec fuel
          { q with read_head := (q.read_head + 1) % NOTE_QUEUE_SIZE } hwf1
          (by omega)
        dsimp only
        rw [ih, toList_cons hwf heq, List.map_cons]
        dsimp only [decode]


/-- `NoteQueue::drain` on a well-formed queue: the callback sees exactly
the decoded queued bytes in FIFO order and the queue is left empty. -/
theorem drain_spec {q : NoteQueue} (hwf : wf q) :
    drain q = ((toList q).map decode, { q with read_head := q.write_head }) :=
  drain_go_spec NOTE_QUEUE_SIZE q hwf (pending_lt q).le


/-- Pushing a list of events onto a queue with enough free space: every
push succeeds, the read cursor is untouched and the queued bytes gain the
encoded events in order. -/
theorem push_all_spec : ∀ (es : List (Bool × ℕ)) (q : NoteQueue), wf q →
    pending q + es.length ≤ NOTE_QUEUE_SIZE - 1 →
    (push_all es q).1 = List.replicate es.length true ∧
    wf (push_all es q).2 ∧
    (push_all es q).2.read_head = q.read_head ∧
    pending (push_all es q).2 = pending q + es.length ∧
    toList (push_all es q).2 = toList q ++ es.map encode
  | [], q, hwf, hlen => by
      refine ⟨rfl, hwf, rfl, rfl, ?_⟩
      rw [List.map_nil, List.append_nil]
      rfl
  | e :: es, q, hwf, hlen => by
      have hp : pending q < NOTE_QUEUE_SIZE - 1 := by
        simp only [List.length_cons] at hlen
        omega
      have hpush := push_raw_spec (encode e) hwf hp
      have ih := push_all_spec es (push_raw (encode e) q).2 hpush.2.1 (by
        rw [hpush.2.2.2.2.2.1]
        simp only [List.length_cons] at hlen
        omega)
      unfold push_all
      rw [push_event_eq]
      dsimp only
      refine ⟨?_, ih.2.1, ?_, ?_, ?_⟩
      · rw [hpush.1, ih.1, List.length_cons, List.replicate_succ]
      · rw [ih.2.2.1, hpush.2.2.1]
      · rw [ih.2.2.2.1, hpush.2.2.2.2.2.1, List.length_cons]
        omega
      · rw [ih.2.2.2.2, hpush.2.2.2.2.2.2, List.map_cons, List.append_assoc,
          List.singleton_append]


theorem decode_high : ∀ n, n < 256 → ((0x80 ||| (n &&& 0x7F)) &&& 0x80 != 0) = true := by
  decide


theorem decode_high_low : ∀ n, n < 256 → (0x80 ||| (n &&& 0x7F)) &&& 0x7F = n % 128 := by
  decide


theorem decode_low : ∀ n, n < 256 → ((n &&& 0x7F) &&& 0x80 != 0) = false := by
  decide


theorem decode_low_low : ∀ n, n < 256 → (n &&& 0x7F) &&& 0x7F = n % 128 := by
  decide


/-- Drain decodes a pushed slot back to the original event as long as the
note fits in 7 bits. -/
theorem decode_encode {e : Bool × ℕ} (h : e.2 < 128) : decode (encode e) = e := by
  rcases e with ⟨b, n⟩
  have h256 : n < 256 := by omega
  have hmod : n % 128 = n := Nat.mod_eq_of_lt h
  cases b
  · show decode (n &&& 0x7F) = (false, n)
    unfold decode
    rw [decode_low n h256, decode_low_low n h256, hmod]
  · show decode (0x80 ||| (n &&& 0x7F)) = (true, n)
    unfold decode
    rw [decode_high n h256, decode_high_low n h256, hmod]


/-- C3 (amended): pushing k ≤ capacity − 1 = 63 events with 7-bit note
values into an empty well-formed queue succeeds for every push, and a
subsequent drain invokes the callback exactly k times with exactly those
(direction, note) events in push order, leaving the queue empty; draining
an empty queue invokes the callback zero times. -/
theorem note_queue_fifo (es : List (Bool × ℕ)) (q : NoteQueue) (hwf : wf q)
    (hempty : q.read_head = q.write_head)
    (hlen : es.length ≤ NOTE_QUEUE_SIZE - 1)
    (hnotes : ∀ e ∈ es, e.2 < 128) :
    (push_all es q).1 = List.replicate es.length true ∧
    (drain (push_all es q).2).1 = es ∧
    (drain (push_all es q).2).2.read_head =
      (drain (push_all es q).2).2.write_head ∧
    (drain q).1 = [] := by
  have hpend0 : pending q = 0 := (pending_eq_zero_iff hwf).mpr hempty
  have hpa := push_all_spec es q hwf (by omega)
  have hd := drain_spec hpa.2.1
  refine ⟨hpa.1, ?_, ?_, ?_⟩
  · rw [hd]
    dsimp only
    rw [hpa.2.2.2.2, toList_empty hpend0, List.nil_append, List.map_map]
    have hco : ∀ e ∈ es, (decode ∘ encode) e = id e := by
      intro e he
      simp only [Function.comp_apply, id_eq]
      exact decode_encode (hnotes e he)
    rw [List.map_congr_left hco, List.map_id]
  · rw [hd]
  · rw [drain_spec hwf]
    dsimp only
    rw [toList_empty hpend0]
    rfl


/-- Witness for C3: two events pushed into a fresh queue both succeed and
drain in order, leaving the cursors equal; a fresh queue drains to no
callback invocations. -/
theorem note_queue_fifo_witness :
    (push_all [(true, 60), (false, 61)] NoteQueue.new).1 =
      List.replicate 2 true ∧
    (drain (push_all [(true, 60), (false, 61)] NoteQueue.new).2).1 =
      [(true, 60), (false, 61)] ∧
    (drain (push_all [(true, 60), (false, 61)] NoteQueue.new).2).2.read_head =
      (drain (push_all [(true, 60), (false, 61)] NoteQueue.new).2).2.write_head ∧
    (drain NoteQueue.new).1 = [] := by
  exact note_queue_fifo [(true, 60), (false, 61)] NoteQueue.new
    (by constructor <;> norm_num [NoteQueue.new, NOTE_QUEUE_SIZE])
    rfl
    (by norm_num [NOTE_QUEUE_SIZE])
    (by decide)


/-- Counterexample to C3 as stated: pushing the out-of-range u8 note 200
succeeds, but the drained event is (true, 72) — the note masked to 7 bits —
not the pushed (true, 200). -/
theorem note_queue_fifo_cex :
    (push_note_on 200 NoteQueue.new).1 = true ∧
    (drain (push_note_on 200 NoteQueue.new).2).1 = [(true, 72)] ∧
    (72 : ℕ) ≠ 200 := by
  decide


/-- C6: pushing onto a full queue (advancing the write cursor would meet
the read cursor) fails with `false` and leaves the whole queue state
unchanged, so a subsequent drain sees exactly the previously queued
events. -/
theorem note_queue_full_push (q : NoteQueue) (n : ℕ)
    (hfull : (q.write_head + 1) % NOTE_QUEUE_SIZE = q.read_head) :
    (push_note_on n q).1 = false ∧ (push_note_on n q).2 = q ∧
    (push_note_off n q).1 = false ∧ (push_note_off n q).2 = q ∧
    drain (push_note_on n q).2 = drain q ∧
    drain (push_note_off n q).2 = drain q := by
  have hon : push_note_on n q = (false, q) := push_raw_full _ hfull
  have hoff : push_note_off n q = (false, q) := push_raw_full _ hfull
  rw [hon, hoff]
  exact ⟨rfl, rfl, rfl, rfl, rfl, rfl⟩


/-- Witness for C6 on a concrete full queue (write cursor 63, read cursor
0: advancing the write cursor wraps to the read cursor). -/
theorem note_queue_full_push_witness :
    (push_note_on 60 { slots := fun _ => 0, write_head := 63, read_head := 0 }).1
      = false ∧
    (push_note_on 60 { slots := fun _ => 0, write_head := 63, read_head := 0 }).2
      = { slots := fun _ => 0, write_head := 63, read_head := 0 } ∧
    (push_note_off 60 { slots := fun _ => 0, write_head := 63, read_head := 0 }).1
      = false ∧
    (push_note_off 60 { slots := fun _ => 0, write_head := 63, read_head := 0 }).2
      = { slots := fun _ => 0, write_head := 63, read_head := 0 } ∧
    drain (push_note_on 60 { slots := fun _ => 0, write_head := 63, read_head := 0 }).2
      = drain { slots := fun _ => 0, write_head := 63, read_head := 0 } ∧
    drain (push_note_off 60 { slots := fun _ => 0, write_head := 63, read_head := 0 }).2
      = drain { slots := fun _ => 0, write_head := 63, read_head := 0 } :=
  note_queue_full_push { slots := fun _ => 0, write_head := 63, read_head := 0 } 60 rfl


/-- C10: the queue delivers only the low 7 bits of the note: pushing any
u8 note n into an empty well-formed queue and draining yields
(direction, n mod 128); in particular note 127 pushed as note-on stores
the byte 0xFF — the empty-slot sentinel — and still drains as (true, 127)
because drain compares cursors, never slot values. -/
theorem note_queue_masks_note (q : NoteQueue) (n : ℕ) (hwf : wf q)
    (hempty : q.read_head = q.write_head) (hn : n < 256) :
    (push_note_on n q).1 = true ∧
    (drain (push_note_on n q).2).1 = [(true, n % 128)] ∧
    (push_note_off n q).1 = true ∧
    (drain (push_note_off n q).2).1 = [(false, n % 128)] ∧
    (push_note_on n q).2.slots q.write_head = 0x80 ||| (n &&& 0x7F) := by
  have hpend0 : pending q = 0 := (pending_eq_zero_iff hwf).mpr hempty
  have hp : pending q < NOTE_QUEUE_SIZE - 1 := by
    rw [hpend0]
    norm_num [NOTE_QUEUE_SIZE]
  have hon := push_raw_spec (0x80 ||| (n &&& 0x7F)) hwf hp
  have hoff := push_raw_spec (n &&& 0x7F) hwf hp
  refine ⟨hon.1, ?_, hoff.1, ?_, hon.2.2.2.2.1⟩
  · rw [show (push_note_on n q).2 = (push_raw (0x80 ||| (n &&& 0x7F)) q).2 from rfl,
      drain_spec hon.2.1]
    dsimp only
    rw [hon.2.2.2.2.2.2, toList_empty hpend0, List.nil_append, List.map_cons,
      List.map_nil]
    unfold decode
    rw [decode_high n hn, decode_high_low n hn]
  · rw [show (push_note_off n q).2 = (push_raw (n &&& 0x7F) q).2 from rfl,
      drain_spec hoff.2.1]
    dsimp only
    rw [hoff.2.2.2.2.2.2, toList_empty hpend0, List.nil_append, List.map_cons,
      List.map_nil]
    unfold decode
    rw [decode_low n hn, decode_low_low n hn]


/-- Witness for C10 at note 127 on a fresh queue: the stored byte is the
sentinel 0xFF, yet the event drains correctly as (true, 127). -/
theorem note_queue_masks_note_witness :
    (push_note_on 127 NoteQueue.new).1 = true ∧
    (drain (push_note_on 127 NoteQueue.new).2).1 = [(true, 127)] ∧
    (push_note_off 127 NoteQueue.new).1 = true ∧
    (drain (push_note_off 127 NoteQueue.new).2).1 = [(false, 127)] ∧
    (push_note_on 127 NoteQueue.new).2.slots NoteQueue.new.write_head = 0xFF := by
  have h := note_queue_masks_note NoteQueue.new 127
    (by constructor <;> norm_num [NoteQueue.new, NOTE_QUEUE_SIZE])
    rfl
    (by norm_num)
  rw [show (127 : ℕ) % 128 = 127 from rfl] at h
  rw [show (0x80 ||| (127 &&& 0x7F) : ℕ) = 0xFF from rfl] at h
  exact h

end NoteQueue
namespace VisBuffer

theorem push_list_append (as bs : List ℚ) (v : VisBuffer) :
    push_list (as ++ bs) v = push_list bs (push_list as v) := by
  induction as generalizing v with
  | nil => rfl
  | cons a as ih =>
      show push_list (as ++ bs) (push a v) = _
      rw [ih]
      rfl


/-- A push that does not reach the end of the buffer: the cursor advances
by one, the front does not flip, and only the back slot at the old cursor
changes. -/
theorem push_no_flip {v : VisBuffer} (x : ℚ)
    (hpos : v.write_pos + 1 < VIS_BUFFER_SIZE) :
    push x v =
      { bufs := Function.update v.bufs (1 - v.front)
          (Function.update (v.bufs (1 - v.front)) v.write_pos x)
        write_pos := v.write_pos + 1
        front := v.front } := by
  unfold push
  dsimp only
  rw [Nat.mod_eq_of_lt hpos, if_neg (Nat.succ_ne_zero v.write_pos)]


/-- Pushing a run of samples that stays strictly inside the buffer: front
and front buffer unchanged, cursor advanced, back buffer holding the run
at the old cursor positions. -/
theorem push_list_no_flip : ∀ (xs : List ℚ) (v : VisBuffer), v.front ≤ 1 →
    v.write_pos + xs.length < VIS_BUFFER_SIZE →
    (push_list xs v).front = v.front ∧
    (push_list xs v).write_pos = v.write_pos + xs.length ∧
    (push_list xs v).bufs v.front = v.bufs v.front ∧
    ∀ i, (push_list xs v).bufs (1 - v.front) i =
      if v.write_pos ≤ i ∧ i < v.write_pos + xs.length
      then xs.getD (i - v.write_pos) 0
      else v.bufs (1 - v.front) i
  | [], v, hf, hrun => by
      refine ⟨rfl, ?_, rfl, ?_⟩
      · show v.write_pos = v.write_pos + [].length
        rw [List.length_nil, Nat.add_zero]
      · intro i
        show v.bufs (1 - v.front) i = _
        rw [List.length_nil, Nat.add_zero, if_neg (by omega)]
  | x :: xs, v, hf, hrun => by
      have hlt1 : v.write_pos + 1 < VIS_BUFFER_SIZE := by
        rw [List.length_cons] at hrun
        omega
      have hne_back : v.front ≠ 1 - v.front := by omega
      rw [show push_list (x :: xs) v = push_list xs (push x v) from rfl,
        push_no_flip x hlt1]
      have ih := push_list_no_flip xs
        { bufs := Function.update v.bufs (1 - v.front)
            (Function.update (v.bufs (1 - v.front)) v.write_pos x)
          write_pos := v.write_pos + 1
          front := v.front }
        hf
        (by dsimp only; rw [List.length_cons] at hrun; omega)
      dsimp only at ih
      refine ⟨ih.1, ?_, ?_, ?_⟩
      · rw [ih.2.1, List.length_cons]
        omega
      · rw [ih.2.2.1, Function.update_noteq hne_back]
      · intro i
        rw [ih.2.2.2 i, Function.update_same, List.length_cons]
        by_cases h1 : v.write_pos + 1 ≤ i ∧ i < v.write_pos + 1 + xs.length
        · rw [if_pos h1, if_pos (by omega),
            show i - v.write_pos = (i - (v.write_pos + 1)) + 1 from by omega,
            List.getD_cons_succ]
        · rw [if_neg h1]
          by_cases h2 : i = v.write_pos
          · subst h2
            rw [Function.update_same, if_pos ⟨le_refl _, by omega⟩,
              Nat.sub_self, List.getD_cons_zero]
          · rw [Function.update_noteq h2, if_neg (by omega)]


/-- Completing a buffer from a cursor-aligned state: the 2048th push flips
the front to the just-filled buffer, whose contents are exactly the pushed
samples in order. -/
theorem push_list_fill (xs : List ℚ) (v : VisBuffer) (hf : v.front ≤ 1)
    (hw : v.write_pos = 0) (hlen : xs.length = VIS_BUFFER_SIZE) :
    (push_list xs v).front = 1 - v.front ∧
    (push_list xs v).write_pos = 0 ∧
    ∀ i, i < VIS_BUFFER_SIZE →
      read_front (push_list xs v) i = xs.getD i 0 := by
  have hxs_ne : xs ≠ [] := by
    intro h
    rw [h] at hlen
    norm_num [VIS_BUFFER_SIZE] at hlen
  have hsplit : xs.dropLast ++ [xs.getLast hxs_ne] = xs :=
    List.dropLast_append_getLast hxs_ne
  have hdl : xs.dropLast.length = VIS_BUFFER_SIZE - 1 := by
    rw [List.length_dropLast, hlen]
  have hpre := push_list_no_flip xs.dropLast v hf
    (by rw [hdl, hw]; norm_num [VIS_BUFFER_SIZE])
  have hwp1 : (push_list xs.dropLast v).write_pos = VIS_BUFFER_SIZE - 1 := by
    rw [hpre.2.1, hw, hdl, Nat.zero_add]
  have hfinal : push (xs.getLast hxs_ne) (push_list xs.dropLast v) =
      { bufs := Function.update (push_list xs.dropLast v).bufs
          (1 - (push_list xs.dropLast v).front)
          (Function.update ((push_list xs.dropLast v).bufs
            (1 - (push_list xs.dropLast v).front))
            (push_list xs.dropLast v).write_pos (xs.getLast hxs_ne))
        write_pos := 0
        front := 1 - (push_list xs.dropLast v).front } := by
    unfold push
    dsimp only
    rw [hwp1, show (VIS_BUFFER_SIZE - 1 + 1) % VIS_BUFFER_SIZE = 0 from by
      norm_num [VIS_BUFFER_SIZE], if_pos rfl]
  rw [← hsplit, push_list_append,
    show push_list [xs.getLast hxs_ne] (push_list xs.dropLast v) =
      push (xs.getLast hxs_ne) (push_list xs.dropLast v) from rfl, hfinal]
  refine ⟨by rw [hpre.1], rfl, ?_⟩
  intro i hi
  show Function.update (push_list xs.dropLast v).bufs
      (1 - (push_list xs.dropLast v).front) _ (1 - (push_list xs.dropLast v).front) i
    = _
  rw [Function.update_same, hpre.1, hwp1]
  by_cases hlast : i = VIS_BUFFER_SIZE - 1
  · subst hlast
    rw [Function.update_same,
      List.getD_append_right _ _ _ _ (by rw [hdl]),
      hdl, Nat.sub_self, List.getD_cons_zero]
  · rw [Function.update_noteq hlast, hpre.2.2.2 i, hw, Nat.zero_add, hdl,
      if_pos ⟨Nat.zero_le i, by omega⟩, Nat.sub_zero,
      List.getD_append _ _ _ _ (by rw [hdl]; omega)]

end VisBuffer

/-- C4: for a freshly constructed VisBuffer, `read_front` is all-zero;
after n < 2048 pushes `read_front` still returns the same (all-zero) array;
once exactly 2048 pushes complete the buffer, `read_front` returns exactly
those samples in push order. -/
theorem vis_buffer_reads (xs : List ℚ) :
    (∀ i, VisBuffer.read_front VisBuffer.new i = 0) ∧
    (xs.length < VIS_BUFFER_SIZE →
      VisBuffer.read_front (VisBuffer.push_list xs VisBuffer.new) =
        VisBuffer.read_front VisBuffer.new) ∧
    (xs.length = VIS_BUFFER_SIZE →
      ∀ i, i < VIS_BUFFER_SIZE →
        VisBuffer.read_front (VisBuffer.push_list xs VisBuffer.new) i =
          xs.getD i 0) := by
  refine ⟨fun i => rfl, ?_, ?_⟩
  · intro hlen
    have h := VisBuffer.push_list_no_flip xs VisBuffer.new
      (by norm_num [VisBuffer.new])
      (by
        show VisBuffer.new.write_pos + xs.length < VIS_BUFFER_SIZE
        norm_num [VisBuffer.new]
        exact hlen)
    show (VisBuffer.push_list xs VisBuffer.new).bufs
        (VisBuffer.push_list xs VisBuffer.new).front =
      VisBuffer.new.bufs VisBuffer.new.front
    rw [h.1]
    exact h.2.2.1
  · intro hlen i hi
    exact (VisBuffer.push_list_fill xs VisBuffer.new
      (by norm_num [VisBuffer.new]) rfl hlen).2.2 i hi


/-- Witness for C4: five pushes leave the front unchanged; a full run of
2048 pushes of the sample 1 makes `read_front` return that sample. -/
theorem vis_buffer_reads_witness :
    VisBuffer.read_front
        (VisBuffer.push_list (List.replicate 5 (1 : ℚ)) VisBuffer.new) =
      VisBuffer.read_front VisBuffer.new ∧
    VisBuffer.read_front
        (VisBuffer.push_list (List.replicate VIS_BUFFER_SIZE (1 : ℚ))
          VisBuffer.new) 0 =
      (List.replicate VIS_BUFFER_SIZE (1 : ℚ)).getD 0 0 :=
  ⟨(vis_buffer_reads (List.replicate 5 (1 : ℚ))).2.1
      (by norm_num [VIS_BUFFER_SIZE]),
   (vis_buffer_reads (List.replicate VIS_BUFFER_SIZE (1 : ℚ))).2.2
      (by norm_num) 0 (by norm_num [VIS_BUFFER_SIZE])⟩

end Plugin
